import Mathlib

/-!
Verification of the quiz data model, validator and scoring engine of the
`test-app` repository.

The embedding follows `src/schemas.py` (the pydantic models `Question`,
`Test`, `TestResult` with the `validate_correct_answers` validator and the
`Field` constraints) and `src/main.py` (`calculate_results`).

Modelling choices:
- Python `int` is `Int` (indices may be negative before validation);
  question positions coming from `enumerate` are `Nat`.
- The `Dict[int, List[int]]` of user answers is an association list
  `List (Nat × List Int)`; `dictGet` models `dict.get(i, [])`.
- Python `float` arithmetic on `percentage` is IEEE-754 binary64: the
  program computes `(score / max_score) * 100` as two correctly rounded
  double operations (int/int true division, then float times the exactly
  representable `100`).  This is modelled by `fl`, correct rounding of a
  rational to the binary64 grid (round to nearest, ties to even, with the
  subnormal cutoff at `2 ^ (-1074)`).  Overflow to infinity is not
  modelled: inside `calculate_results` the first operand `score/max_score`
  lies in `[0, 1]` and the second in `[0, 100]`, far below the largest
  finite double, so rounding on the unbounded-exponent grid coincides with
  binary64 on every reachable value.  The comparison
  `percentage >= test.passing_score` (float against int) is exact in
  Python and is modelled by the exact `Rat` order.
- pydantic validation is modelled as a Boolean predicate on the fully typed
  record: a definition is accepted (the model is constructed) iff the
  predicate holds; on acceptance pydantic returns the field values
  unchanged, so parsing is `if valid then some record else none`.
- `datetime.now()` (the `timestamp` field) is I/O and is left out of the
  embedding; no claim mentions it.
-/

/-- `QuestionType(str, Enum)` from `src/schemas.py`. -/
inductive QuestionType where
  | single
  | multiple
deriving DecidableEq, Repr

/-- The `Question` pydantic model from `src/schemas.py` (fields only;
validation is `validQuestion`). -/
structure Question where
  text : String
  type : QuestionType
  options : List String
  correct_answers : List Int
  explanation : Option String
deriving DecidableEq, Repr

/-- The `Test` pydantic model from `src/schemas.py` (fields only;
validation is `validTest`). -/
structure Test where
  name : String
  description : String
  questions : List Question
  time_limit : Option Int
  passing_score : Int
deriving DecidableEq, Repr

/-- One entry of `detailed_answers` built by `calculate_results` in
`src/main.py` (the dict appended at lines 79-86). -/
structure QuestionResult where
  question_text : String
  question_type : QuestionType
  user_answer : List Int
  correct_answer : List Int
  is_correct : Bool
  explanation : Option String
deriving DecidableEq, Repr

/-- The `TestResult` pydantic model from `src/schemas.py`, without the
opaque `timestamp` string. -/
structure TestResult where
  test_name : String
  score : Nat
  max_score : Nat
  percentage : Rat
  passed : Bool
  answers : List QuestionResult
deriving DecidableEq, Repr

/-- The `validate_correct_answers` validator of `Question` in
`src/schemas.py` (lines 21-35): rejects an empty list, an index below `0`
or above `len(options) - 1`, and, for type `single`, a list whose length
is not `1`.  `true` means the validator returns without raising. -/
def validate_correct_answers (qtype : QuestionType) (options : List String)
    (v : List Int) : Bool :=
  (!v.isEmpty) &&
  v.all (fun idx =>
    !(decide (idx < 0) || decide (idx > (options.length : Int) - 1))) &&
  !(qtype == QuestionType.single && v.length != 1)

/-- Acceptance of a `Question` definition: the `min_items=2` constraint on
`options` (schemas.py line 14) together with `validate_correct_answers`. -/
def validQuestion (q : Question) : Bool :=
  decide (2 ≤ q.options.length) &&
  validate_correct_answers q.type q.options q.correct_answers

/-- Acceptance of a `Test` definition: `min_items=1` on `questions`
(schemas.py line 41), every question accepted, and
`passing_score` in `[0, 100]` (`ge=0, le=100`, schemas.py line 43).
`name`, `description` and `time_limit` carry no constraint beyond their
type. -/
def validTest (t : Test) : Bool :=
  decide (1 ≤ t.questions.length) &&
  t.questions.all validQuestion &&
  decide (0 ≤ t.passing_score) &&
  decide (t.passing_score ≤ 100)

/-- `Test(**data)` in `load_test_from_file` (main.py lines 25-33): the
constructor validates and, on success, returns the record with its field
values unchanged (every pydantic validator in schemas.py returns `v`). -/
def parse_test (t : Test) : Option Test :=
  if validTest t then some t else none

/-- Round a rational to the nearest integer, ties to even: the rounding
of IEEE-754 round-to-nearest-even at integer granularity. -/
def rndNE (x : Rat) : Int :=
  if x - (⌊x⌋ : Rat) < 1/2 then ⌊x⌋
  else if 1/2 < x - (⌊x⌋ : Rat) then ⌊x⌋ + 1
  else if ⌊x⌋ % 2 = 0 then ⌊x⌋ else ⌊x⌋ + 1

/-- `⌊log₂ q⌋` of a positive rational, from the binary lengths of its
numerator and denominator. -/
def ratLog2 (q : Rat) : Int :=
  let e0 : Int := (q.num.natAbs.log2 : Int) - (q.den.log2 : Int)
  if q < (2 : Rat) ^ e0 then e0 - 1 else e0

/-- The exponent of the binary64 grid spacing (`ulp = 2 ^ flScale q`) at
magnitude `q`: 52 bits below the leading bit, floored at the subnormal
spacing `2 ^ (-1074)`. -/
def flScale (q : Rat) : Int := max (ratLog2 q - 52) (-1074)

/-- Correct rounding of a positive rational onto the binary64 grid. -/
def flPos (q : Rat) : Rat :=
  (rndNE (q / (2 : Rat) ^ flScale q) : Rat) * (2 : Rat) ^ flScale q

/-- Correct rounding of a rational to IEEE-754 binary64 (round to
nearest, ties to even; subnormals included, overflow not modelled — see
the module comment). -/
def fl (q : Rat) : Rat :=
  if q = 0 then 0
  else if 0 < q then flPos q
  else -(flPos (-q))

/-- `user_answers.get(i, [])` on the `Dict[int, List[int]]` of submitted
answers (main.py line 66). -/
def dictGet (d : List (Nat × List Int)) (i : Nat) : List Int :=
  match d.find? (fun p => p.1 == i) with
  | some p => p.2
  | none => []

/-- The per-question correctness test of `calculate_results`
(main.py lines 67-74): for `single`, the answer list has length `1` and
its element is `in correct_answers`; otherwise (multiple) the two lists
are equal as sets. -/
def score_question (question : Question) (user_answer : List Int) : Bool :=
  match question.type with
  | QuestionType.single =>
      if user_answer.length = 1 then
        decide (user_answer[0]! ∈ question.correct_answers)
      else false
  | QuestionType.multiple =>
      decide (user_answer.toFinset = question.correct_answers.toFinset)

/-- The dict appended to `detailed_answers` for the question at position
`p.1` (main.py lines 79-86). -/
def question_result (user_answers : List (Nat × List Int))
    (p : Nat × Question) : QuestionResult :=
  let user_answer := dictGet user_answers p.1
  { question_text := p.2.text
    question_type := p.2.type
    user_answer := user_answer
    correct_answer := p.2.correct_answers
    is_correct := score_question p.2 user_answer
    explanation := p.2.explanation }

/-- `calculate_results` from `src/main.py` (lines 56-99).  The loop over
`enumerate(test.questions)` is the map over `List.enum`; the score
accumulated by `score += 1` on each correct question is the count of
correct entries. -/
def calculate_results (test : Test)
    (user_answers : List (Nat × List Int)) : TestResult :=
  let max_score := test.questions.length
  let detailed_answers := test.questions.enum.map (question_result user_answers)
  let score := detailed_answers.countP (fun r => r.is_correct)
  let percentage : Rat :=
    if max_score > 0 then
      fl (fl ((score : Rat) / (max_score : Rat)) * 100)
    else 0
  { test_name := test.name
    score := score
    max_score := max_score
    percentage := percentage
    passed := decide (percentage ≥ (test.passing_score : Rat))
    answers := detailed_answers }

/-! ### Helper lemmas -/

/-- The `answers` field of a result is the mapped enumeration of the
questions. -/
theorem answers_eq (t : Test) (d : List (Nat × List Int)) :
    (calculate_results t d).answers = t.questions.enum.map (question_result d) :=
  rfl

/-- The result carries one `QuestionResult` per question. -/
theorem answers_length (t : Test) (d : List (Nat × List Int)) :
    (calculate_results t d).answers.length = t.questions.length := by
  simp [answers_eq]

/-- The entry at position `i` of the result is the per-question result of
the question at position `i`. -/
theorem answers_get (t : Test) (d : List (Nat × List Int)) (i : Nat)
    (h1 : i < t.questions.length)
    (h2 : i < (calculate_results t d).answers.length) :
    (calculate_results t d).answers.get ⟨i, h2⟩ =
      question_result d (i, t.questions.get ⟨i, h1⟩) := by
  simp only [answers_eq] at h2 ⊢
  have h3 : i < t.questions.enum.length := by simpa using h1
  simp [List.getElem_map, List.getElem_enum]

/-- Unfolding of `validQuestion` into the three domain invariants plus the
`min_items=2` constraint on `options`. -/
theorem validQuestion_spec (q : Question) :
    validQuestion q = true ↔
      2 ≤ q.options.length ∧
      q.correct_answers ≠ [] ∧
      (∀ idx ∈ q.correct_answers, 0 ≤ idx ∧ idx ≤ (q.options.length : Int) - 1) ∧
      (q.type = QuestionType.single → q.correct_answers.length = 1) := by
  simp [validQuestion, validate_correct_answers, List.all_eq_true,
    List.isEmpty_iff, not_lt, and_assoc, imp_iff_not_or]

/-- Every question of a validated test passed `validQuestion`. -/
theorem validTest_question (t : Test) (ht : validTest t = true) (i : Nat)
    (h : i < t.questions.length) :
    validQuestion (t.questions.get ⟨i, h⟩) = true := by
  simp [validTest, List.all_eq_true, and_assoc] at ht
  exact ht.2.1 _ (List.get_mem t.questions i h)

/-- `dict.get(i, [])` on a dict whose keys all differ from `i` is `[]`. -/
theorem dictGet_eq_nil (d : List (Nat × List Int)) (i : Nat)
    (h : ∀ p ∈ d, p.1 ≠ i) : dictGet d i = [] := by
  have hfind : d.find? (fun p => p.1 == i) = none :=
    List.find?_eq_none.mpr (fun p hp => by simpa using h p hp)
  simp [dictGet, hfind]

/-! ### Rounding lemmas for the binary64 model -/

/-- Round-to-nearest never overshoots by more than half. -/
theorem rndNE_le (x : Rat) : (rndNE x : Rat) ≤ x + 1/2 := by
  have hf : (⌊x⌋ : Rat) ≤ x := Int.floor_le x
  unfold rndNE
  by_cases h1 : x - (⌊x⌋ : Rat) < 1/2
  · rw [if_pos h1]; linarith
  · rw [if_neg h1]
    by_cases h2 : 1/2 < x - (⌊x⌋ : Rat)
    · rw [if_pos h2]; push_cast; linarith
    · rw [if_neg h2]
      by_cases h4 : ⌊x⌋ % 2 = 0
      · rw [if_pos h4]; linarith
      · rw [if_neg h4]; push_cast; linarith [not_lt.mp h1]

/-- Round-to-nearest never undershoots by more than half. -/
theorem le_rndNE (x : Rat) : x - 1/2 ≤ (rndNE x : Rat) := by
  have hf : (⌊x⌋ : Rat) ≤ x := Int.floor_le x
  have hc : x < (⌊x⌋ : Rat) + 1 := Int.lt_floor_add_one x
  unfold rndNE
  by_cases h1 : x - (⌊x⌋ : Rat) < 1/2
  · rw [if_pos h1]; linarith
  · rw [if_neg h1]
    by_cases h2 : 1/2 < x - (⌊x⌋ : Rat)
    · rw [if_pos h2]; push_cast; linarith
    · rw [if_neg h2]
      by_cases h4 : ⌊x⌋ % 2 = 0
      · rw [if_pos h4]; linarith [not_lt.mp h2]
      · rw [if_neg h4]; push_cast; linarith

/-- Round-to-nearest preserves nonnegativity. -/
theorem rndNE_nonneg (x : Rat) (hx : 0 ≤ x) : 0 ≤ rndNE x := by
  have h0 : 0 ≤ ⌊x⌋ := Int.floor_nonneg.mpr hx
  unfold rndNE
  by_cases h1 : x - (⌊x⌋ : Rat) < 1/2
  · rw [if_pos h1]; exact h0
  · rw [if_neg h1]
    by_cases h2 : 1/2 < x - (⌊x⌋ : Rat)
    · rw [if_pos h2]; omega
    · rw [if_neg h2]
      by_cases h4 : ⌊x⌋ % 2 = 0
      · rw [if_pos h4]; exact h0
      · rw [if_neg h4]; omega

/-- Below the halfway point, round-to-nearest is the floor. -/
theorem rndNE_eq_floor (x : Rat) (h : x - (⌊x⌋ : Rat) < 1/2) :
    rndNE x = ⌊x⌋ := by
  unfold rndNE
  rw [if_pos h]

/-- `ratLog2` is the binary order of magnitude:
`2 ^ ratLog2 q ≤ q < 2 ^ (ratLog2 q + 1)`. -/
theorem ratLog2_spec (q : Rat) (hq : 0 < q) :
    (2 : Rat) ^ ratLog2 q ≤ q ∧ q < (2 : Rat) ^ (ratLog2 q + 1) := by
  have hnum : 0 < q.num := Rat.num_pos.mpr hq
  have hn : q.num.natAbs ≠ 0 := Int.natAbs_ne_zero.mpr (ne_of_gt hnum)
  have hd : q.den ≠ 0 := q.den_nz
  have hB : (0 : Rat) < (q.den : Rat) := by
    exact_mod_cast Nat.pos_of_ne_zero hd
  have hq_eq : ((q.num.natAbs : Rat)) / (q.den : Rat) = q := by
    rw [Int.cast_natAbs, abs_of_nonneg (by exact_mod_cast le_of_lt hnum)]
    exact Rat.num_div_den q
  have hb1 : (2 : Rat) ^ (q.num.natAbs.log2 : Int) ≤ (q.num.natAbs : Rat) := by
    rw [zpow_natCast]
    exact_mod_cast Nat.log2_self_le hn
  have hb2 : (q.num.natAbs : Rat) < (2 : Rat) ^ ((q.num.natAbs.log2 : Int) + 1) := by
    rw [show ((q.num.natAbs.log2 : Int) + 1) = ((q.num.natAbs.log2 + 1 : Nat) : Int)
      from by push_cast; ring, zpow_natCast]
    exact_mod_cast Nat.lt_log2_self
  have hb3 : (2 : Rat) ^ (q.den.log2 : Int) ≤ (q.den : Rat) := by
    rw [zpow_natCast]
    exact_mod_cast Nat.log2_self_le hd
  have hb4 : (q.den : Rat) < (2 : Rat) ^ ((q.den.log2 : Int) + 1) := by
    rw [show ((q.den.log2 : Int) + 1) = ((q.den.log2 + 1 : Nat) : Int)
      from by push_cast; ring, zpow_natCast]
    exact_mod_cast Nat.lt_log2_self
  have ha : q < (2 : Rat) ^ ((q.num.natAbs.log2 : Int) - (q.den.log2 : Int) + 1) := by
    have key : (q.num.natAbs : Rat) <
        (2 : Rat) ^ ((q.num.natAbs.log2 : Int) - (q.den.log2 : Int) + 1) *
          (q.den : Rat) :=
      calc (q.num.natAbs : Rat)
          < (2 : Rat) ^ ((q.num.natAbs.log2 : Int) + 1) := hb2
        _ = (2 : Rat) ^ ((q.num.natAbs.log2 : Int) - (q.den.log2 : Int) + 1) *
              (2 : Rat) ^ (q.den.log2 : Int) := by
            rw [← zpow_add₀ (two_ne_zero (α := Rat))]
            congr 1
            ring
        _ ≤ (2 : Rat) ^ ((q.num.natAbs.log2 : Int) - (q.den.log2 : Int) + 1) *
              (q.den : Rat) :=
            mul_le_mul_of_nonneg_left hb3 (le_of_lt (zpow_pos two_pos _))
    have := (div_lt_iff₀ hB).mpr key
    rwa [hq_eq] at this
  have hb : (2 : Rat) ^ ((q.num.natAbs.log2 : Int) - (q.den.log2 : Int) - 1) ≤ q := by
    have key : (2 : Rat) ^ ((q.num.natAbs.log2 : Int) - (q.den.log2 : Int) - 1) *
        (q.den : Rat) ≤ (q.num.natAbs : Rat) := by
      refine le_of_lt ?_
      calc (2 : Rat) ^ ((q.num.natAbs.log2 : Int) - (q.den.log2 : Int) - 1) *
            (q.den : Rat)
          < (2 : Rat) ^ ((q.num.natAbs.log2 : Int) - (q.den.log2 : Int) - 1) *
              (2 : Rat) ^ ((q.den.log2 : Int) + 1) :=
            mul_lt_mul_of_pos_left hb4 (zpow_pos two_pos _)
        _ = (2 : Rat) ^ (q.num.natAbs.log2 : Int) := by
            rw [← zpow_add₀ (two_ne_zero (α := Rat))]
            congr 1
            ring
        _ ≤ (q.num.natAbs : Rat) := hb1
    have := (le_div_iff₀ hB).mpr key
    rwa [hq_eq] at this
  simp only [ratLog2]
  by_cases hcase :
      q < (2 : Rat) ^ ((q.num.natAbs.log2 : Int) - (q.den.log2 : Int))
  · rw [if_pos hcase]
    refine ⟨hb, ?_⟩
    rw [show (q.num.natAbs.log2 : Int) - (q.den.log2 : Int) - 1 + 1 =
      (q.num.natAbs.log2 : Int) - (q.den.log2 : Int) from by ring]
    exact hcase
  · rw [if_neg hcase]
    exact ⟨not_lt.mp hcase, ha⟩

/-- The binary order of magnitude is unique. -/
theorem ratLog2_eq_of (q : Rat) (e : Int) (hq : 0 < q)
    (h1 : (2 : Rat) ^ e ≤ q) (h2 : q < (2 : Rat) ^ (e + 1)) :
    ratLog2 q = e := by
  obtain ⟨g1, g2⟩ := ratLog2_spec q hq
  by_contra hne
  rcases lt_or_gt_of_ne hne with h | h
  · have : (2 : Rat) ^ (ratLog2 q + 1) ≤ 2 ^ e :=
      zpow_le_zpow_right₀ one_le_two (by omega)
    linarith
  · have : (2 : Rat) ^ (e + 1) ≤ 2 ^ ratLog2 q :=
      zpow_le_zpow_right₀ one_le_two (by omega)
    linarith

/-- An upper bound on a positive rational bounds its binary magnitude. -/
theorem ratLog2_le_of_lt (q : Rat) (e : Int) (hq : 0 < q)
    (h : q < (2 : Rat) ^ (e + 1)) : ratLog2 q ≤ e := by
  obtain ⟨g1, -⟩ := ratLog2_spec q hq
  by_contra hgt
  push_neg at hgt
  have : (2 : Rat) ^ (e + 1) ≤ 2 ^ ratLog2 q :=
    zpow_le_zpow_right₀ one_le_two (by omega)
  linarith

/-- An upper bound on a positive rational bounds its grid spacing. -/
theorem flScale_le (q : Rat) (e : Int) (hq : 0 < q)
    (h : q < (2 : Rat) ^ (e + 1)) (he : -1022 ≤ e) : flScale q ≤ e - 52 := by
  have := ratLog2_le_of_lt q e hq h
  unfold flScale
  exact max_le (by omega) (by omega)

/-- Evaluation rule for `fl` in the normal range: when the magnitude `e`
and the rounded significand are known, `fl` is determined. -/
theorem fl_eval (q : Rat) (e N : Int) (hq : 0 < q)
    (h1 : (2 : Rat) ^ e ≤ q) (h2 : q < (2 : Rat) ^ (e + 1)) (he : -1022 ≤ e)
    (hN : rndNE (q / (2 : Rat) ^ (e - 52)) = N) :
    fl q = (N : Rat) * (2 : Rat) ^ (e - 52) := by
  have hscale : flScale q = e - 52 := by
    unfold flScale
    rw [ratLog2_eq_of q e hq h1 h2]
    exact max_eq_left (by omega)
  unfold fl flPos
  rw [if_neg (ne_of_gt hq), if_pos hq, hscale, hN]

/-- Rounding a nonnegative value stays nonnegative. -/
theorem fl_nonneg (q : Rat) (hq : 0 ≤ q) : 0 ≤ fl q := by
  unfold fl
  rcases eq_or_lt_of_le hq with h | h
  · rw [if_pos h.symm]
  · rw [if_neg (ne_of_gt h), if_pos h]
    unfold flPos
    have hr := rndNE_nonneg (q / (2 : Rat) ^ flScale q)
      (le_of_lt (div_pos h (zpow_pos two_pos _)))
    exact mul_nonneg (by exact_mod_cast hr) (le_of_lt (zpow_pos two_pos _))

/-- Rounding cannot cross a representable bound from below: if
`q ≤ M * 2 ^ j` with `M < 2 ^ 53` and `j ≥ -1074`, then `fl q` obeys the
same bound. -/
theorem fl_le_of_le (q : Rat) (M : Nat) (j : Int) (hq : 0 ≤ q)
    (hM : M < 2 ^ 53) (hj : -1074 ≤ j)
    (h : q ≤ (M : Rat) * (2 : Rat) ^ j) :
    fl q ≤ (M : Rat) * (2 : Rat) ^ j := by
  rcases eq_or_lt_of_le hq with h0 | h0
  · rw [fl, if_pos h0.symm]
    positivity
  · have hql := (ratLog2_spec q h0).1
    have hkj : flScale q ≤ j := by
      have he : ratLog2 q < j + 53 := by
        have hlt : (2 : Rat) ^ ratLog2 q < 2 ^ (j + 53) := by
          calc (2 : Rat) ^ ratLog2 q ≤ q := hql
            _ ≤ (M : Rat) * 2 ^ j := h
            _ < (2 : Rat) ^ (53 : Int) * 2 ^ j := by
                refine mul_lt_mul_of_pos_right ?_ (zpow_pos two_pos _)
                rw [show ((53 : Int)) = ((53 : Nat) : Int) from rfl, zpow_natCast]
                exact_mod_cast hM
            _ = 2 ^ (j + 53) := by
                rw [← zpow_add₀ (two_ne_zero (α := Rat))]
                congr 1
                ring
        exact (zpow_lt_zpow_iff_right₀ one_lt_two).mp hlt
      unfold flScale
      exact max_le (by omega) hj
    have hNform : fl q =
        ((rndNE (q / (2 : Rat) ^ flScale q) : Int) : Rat) *
          (2 : Rat) ^ flScale q := by
      rw [fl, if_neg (ne_of_gt h0), if_pos h0, flPos]
    set k := flScale q with hk_def
    by_contra hgt
    push_neg at hgt
    have h2k : (0 : Rat) < (2 : Rat) ^ k := zpow_pos two_pos _
    have hjk : 0 ≤ j - k := by omega
    have hexp : (((j - k).toNat : Int)) + k = j := by
      rw [Int.toNat_of_nonneg hjk]
      ring
    have hc : (M : Rat) * (2 : Rat) ^ j =
        ((M * 2 ^ (j - k).toNat : Int) : Rat) * (2 : Rat) ^ k := by
      push_cast
      rw [mul_assoc, ← zpow_natCast (2 : Rat) ((j - k).toNat),
        ← zpow_add₀ (two_ne_zero (α := Rat)), hexp]
    have hintlt : (M * 2 ^ (j - k).toNat : Int) <
        rndNE (q / (2 : Rat) ^ k) := by
      rw [hc, hNform] at hgt
      have := (mul_lt_mul_right h2k).mp hgt
      exact_mod_cast this
    have hge : ((M * 2 ^ (j - k).toNat : Int) : Rat) + 1 ≤
        ((rndNE (q / (2 : Rat) ^ k) : Int) : Rat) := by
      exact_mod_cast hintlt
    have hub : fl q ≤ q + (2 : Rat) ^ (k - 1) := by
      rw [hNform]
      have hle := rndNE_le (q / (2 : Rat) ^ k)
      have h3 := mul_le_mul_of_nonneg_right hle (le_of_lt h2k)
      rw [add_mul, div_mul_cancel₀ _ (ne_of_gt h2k)] at h3
      have hk1 : (2 : Rat) ^ (k - 1) = (2 : Rat) ^ k / 2 := by
        rw [zpow_sub₀ (two_ne_zero (α := Rat)), zpow_one]
      linarith
    have hlb : (M : Rat) * (2 : Rat) ^ j + (2 : Rat) ^ k ≤ fl q := by
      rw [hc, hNform]
      calc ((M * 2 ^ (j - k).toNat : Int) : Rat) * (2 : Rat) ^ k +
            (2 : Rat) ^ k
          = (((M * 2 ^ (j - k).toNat : Int) : Rat) + 1) * (2 : Rat) ^ k := by
            ring
        _ ≤ ((rndNE (q / (2 : Rat) ^ k) : Int) : Rat) * (2 : Rat) ^ k :=
            mul_le_mul_of_nonneg_right hge (le_of_lt h2k)
    have hklt : (2 : Rat) ^ (k - 1) < (2 : Rat) ^ k :=
      zpow_lt_zpow_right₀ one_lt_two (by omega)
    linarith

/-- Correct rounding is accurate to half an ulp. -/
theorem fl_error (q : Rat) (hq : 0 < q) :
    |fl q - q| ≤ (2 : Rat) ^ (flScale q - 1) := by
  have hNform : fl q =
      ((rndNE (q / (2 : Rat) ^ flScale q) : Int) : Rat) *
        (2 : Rat) ^ flScale q := by
    rw [fl, if_neg (ne_of_gt hq), if_pos hq, flPos]
  set k := flScale q with hk_def
  have h2k : (0 : Rat) < (2 : Rat) ^ k := zpow_pos two_pos _
  have hk1 : (2 : Rat) ^ (k - 1) = (2 : Rat) ^ k / 2 := by
    rw [zpow_sub₀ (two_ne_zero (α := Rat)), zpow_one]
  rw [abs_le]
  constructor
  · rw [hNform]
    have hdown := le_rndNE (q / (2 : Rat) ^ k)
    have h3 := mul_le_mul_of_nonneg_right hdown (le_of_lt h2k)
    rw [sub_mul, div_mul_cancel₀ _ (ne_of_gt h2k)] at h3
    linarith
  · rw [hNform]
    have hup := rndNE_le (q / (2 : Rat) ^ k)
    have h3 := mul_le_mul_of_nonneg_right hup (le_of_lt h2k)
    rw [add_mul, div_mul_cancel₀ _ (ne_of_gt h2k)] at h3
    linarith

/-- The score of a result is the count of correct entries. -/
theorem score_eq (t : Test) (d : List (Nat × List Int)) :
    (calculate_results t d).score =
      (t.questions.enum.map (question_result d)).countP
        (fun r => r.is_correct) :=
  rfl

/-- The score never exceeds the question count. -/
theorem score_le_max (t : Test) (d : List (Nat × List Int)) :
    (calculate_results t d).score ≤ t.questions.length := by
  rw [score_eq]
  have h1 : (t.questions.enum.map (question_result d)).countP
      (fun r => r.is_correct) ≤
      (t.questions.enum.map (question_result d)).length :=
    List.countP_le_length _
  simpa using h1

/-- The percentage field on a test with at least one question. -/
theorem percentage_eq (t : Test) (d : List (Nat × List Int))
    (h : 0 < t.questions.length) :
    (calculate_results t d).percentage =
      fl (fl (((calculate_results t d).score : Rat) /
        ((calculate_results t d).max_score : Rat)) * 100) := by
  have hif : (calculate_results t d).percentage =
      if 0 < t.questions.length then
        fl (fl (((calculate_results t d).score : Rat) /
          ((calculate_results t d).max_score : Rat)) * 100)
      else 0 := rfl
  rw [hif, if_pos h]

/-- The percentage field on a test with no questions. -/
theorem percentage_zero (t : Test) (d : List (Nat × List Int))
    (h : t.questions.length = 0) :
    (calculate_results t d).percentage = 0 := by
  have hif : (calculate_results t d).percentage =
      if 0 < t.questions.length then
        fl (fl (((calculate_results t d).score : Rat) /
          ((calculate_results t d).max_score : Rat)) * 100)
      else 0 := rfl
  rw [hif, if_neg (by omega)]

/-! ### Concrete data for witnesses -/

/-- A concrete single-type question (Scenario A of the spec). -/
def sampleSingleQ : Question :=
  { text := "pick one", type := QuestionType.single,
    options := ["A", "B", "C"], correct_answers := [1], explanation := none }

/-- A concrete multiple-type question (Scenarios B and C of the spec). -/
def sampleMultiQ : Question :=
  { text := "pick all", type := QuestionType.multiple,
    options := ["A", "B", "C", "D"], correct_answers := [0, 2],
    explanation := some "first and third" }

/-- A concrete two-question test. -/
def sampleTest : Test :=
  { name := "sample", description := "demo",
    questions := [sampleSingleQ, sampleMultiQ],
    time_limit := none, passing_score := 80 }

/-- Answers for both positions of `sampleTest`. -/
def sampleAnswers : List (Nat × List Int) := [(0, [1]), (1, [0, 2])]

/-- Answers leaving position `1` of `sampleTest` unanswered. -/
def partialAnswers : List (Nat × List Int) := [(0, [1])]

/-! ### Claims -/

/-- C1: for every validated test and every answer map, a single-type
question is scored correct iff the submitted answer list has exactly one
element and that element is the single member of `correct_answers`
(the `in` membership test of main.py line 71 coincides with equality under
the single-answer invariant enforced by validation). -/
theorem single_scored_correct_iff (t : Test) (ht : validTest t = true)
    (d : List (Nat × List Int)) (i : Nat) (hi : i < t.questions.length)
    (h2 : i < (calculate_results t d).answers.length)
    (hq : (t.questions.get ⟨i, hi⟩).type = QuestionType.single) :
    ((calculate_results t d).answers.get ⟨i, h2⟩).is_correct = true ↔
      ∃ c, (t.questions.get ⟨i, hi⟩).correct_answers = [c] ∧
        dictGet d i = [c] := by
  rw [answers_get t d i hi h2]
  have hvq := validTest_question t ht i hi
  obtain ⟨-, -, -, hsingle⟩ := (validQuestion_spec _).mp hvq
  obtain ⟨c, hc⟩ := List.length_eq_one.mp (hsingle hq)
  simp only [question_result, score_question, hq, hc]
  by_cases hlen : (dictGet d i).length = 1
  · obtain ⟨a, ha⟩ := List.length_eq_one.mp hlen
    simp [ha, eq_comm]
  · simp only [hlen, if_false]
    constructor
    · intro h
      exact absurd h (by simp)
    · rintro ⟨c2, hc2, hd⟩
      exact absurd (by rw [hd]; rfl) hlen

/-- Witness for C1: the sample single question with answer `[1]` is scored
correct, and indeed `[1]` is exactly the correct-answer list. -/
theorem single_scored_correct_iff_witness :
    ((calculate_results sampleTest sampleAnswers).answers.get
        ⟨0, by decide⟩).is_correct = true ↔
      ∃ c, (sampleTest.questions.get ⟨0, by decide⟩).correct_answers = [c] ∧
        dictGet sampleAnswers 0 = [c] :=
  single_scored_correct_iff sampleTest (by decide) sampleAnswers 0
    (by decide) (by decide) (by decide)

/-- C2: for every validated test and every answer map, a multiple-type
question is scored correct iff the set of submitted indices equals the set
of correct answers; a strict subset or strict superset of the correct set
is scored incorrect (no partial credit). -/
theorem multiple_scored_correct_iff (t : Test) (ht : validTest t = true)
    (d : List (Nat × List Int)) (i : Nat) (hi : i < t.questions.length)
    (h2 : i < (calculate_results t d).answers.length)
    (hq : (t.questions.get ⟨i, hi⟩).type = QuestionType.multiple) :
    (((calculate_results t d).answers.get ⟨i, h2⟩).is_correct = true ↔
      (dictGet d i).toFinset =
        (t.questions.get ⟨i, hi⟩).correct_answers.toFinset) ∧
    (((dictGet d i).toFinset ⊂
        (t.questions.get ⟨i, hi⟩).correct_answers.toFinset ∨
      (t.questions.get ⟨i, hi⟩).correct_answers.toFinset ⊂
        (dictGet d i).toFinset) →
      ((calculate_results t d).answers.get ⟨i, h2⟩).is_correct = false) := by
  rw [answers_get t d i hi h2]
  constructor
  · simp only [List.get_eq_getElem] at hq
    simp [question_result, score_question, hq]
  · intro hss
    have hne : (dictGet d i).toFinset ≠
        (t.questions.get ⟨i, hi⟩).correct_answers.toFinset := by
      rcases hss with h | h
      · exact h.ne
      · exact (h.ne).symm
    simp only [List.get_eq_getElem] at hq hne
    simp [question_result, score_question, hq, hne]

/-- Witness for C2: the sample multiple question with answer `[0, 2]` is
scored by set equality, and strict sub/supersets are refuted. -/
theorem multiple_scored_correct_iff_witness :
    (((calculate_results sampleTest sampleAnswers).answers.get
        ⟨1, by decide⟩).is_correct = true ↔
      (dictGet sampleAnswers 1).toFinset =
        (sampleTest.questions.get ⟨1, by decide⟩).correct_answers.toFinset) ∧
    (((dictGet sampleAnswers 1).toFinset ⊂
        (sampleTest.questions.get ⟨1, by decide⟩).correct_answers.toFinset ∨
      (sampleTest.questions.get ⟨1, by decide⟩).correct_answers.toFinset ⊂
        (dictGet sampleAnswers 1).toFinset) →
      ((calculate_results sampleTest sampleAnswers).answers.get
        ⟨1, by decide⟩).is_correct = false) :=
  multiple_scored_correct_iff sampleTest (by decide) sampleAnswers 1
    (by decide) (by decide) (by decide)

/-- C3 (amended): the result's percentage is the IEEE-754 binary64
evaluation of `(score / max_score) * 100` when `max_score` is positive —
which lies within `2 ^ (-45)` of the exact `100 * score / max_score` but
need not equal it (see the counterexample) — and `0` when `max_score` is
zero; `passed` holds exactly when the percentage reaches the test's
passing score. -/
theorem percentage_and_passed (t : Test) (d : List (Nat × List Int)) :
    (calculate_results t d).percentage =
      (if (calculate_results t d).max_score = 0 then 0
       else fl (fl (((calculate_results t d).score : Rat) /
         ((calculate_results t d).max_score : Rat)) * 100)) ∧
    |(calculate_results t d).percentage -
      100 * ((calculate_results t d).score : Rat) /
        ((calculate_results t d).max_score : Rat)| ≤ 1 / 2 ^ 45 ∧
    ((calculate_results t d).passed = true ↔
      (calculate_results t d).percentage ≥ (t.passing_score : Rat)) := by
  have hm : (calculate_results t d).max_score = t.questions.length := rfl
  refine ⟨?_, ?_, ?_⟩
  · by_cases h : t.questions.length = 0
    · rw [hm, if_pos h]
      exact percentage_zero t d h
    · rw [hm, if_neg h]
      exact percentage_eq t d (Nat.pos_of_ne_zero h)
  · by_cases h : t.questions.length = 0
    · have hs : (calculate_results t d).score = 0 := by
        rw [score_eq, List.length_eq_zero.mp h]
        rfl
      rw [percentage_zero t d h, hs, hm, h]
      norm_num
    · have hpos := Nat.pos_of_ne_zero h
      rw [percentage_eq t d hpos, hm]
      set s : Rat := ((calculate_results t d).score : Rat) with hs_def
      set m : Rat := (t.questions.length : Rat) with hm_def
      have hmpos : (0 : Rat) < m := by
        rw [hm_def]
        exact_mod_cast hpos
      have hy0 : (0 : Rat) ≤ s / m := by
        refine div_nonneg ?_ (le_of_lt hmpos)
        rw [hs_def]
        positivity
      have hy1 : s / m ≤ 1 := by
        rw [div_le_one hmpos, hs_def, hm_def]
        exact_mod_cast score_le_max t d
      have hE1 : |fl (s / m) - s / m| ≤ (2 : Rat) ^ (-(53 : Int)) := by
        rcases eq_or_lt_of_le hy0 with h0 | h0
        · rw [← h0]
          simp [fl]
          positivity
        · have herr := fl_error (s / m) h0
          have hsc : flScale (s / m) ≤ (0 : Int) - 52 := by
            refine flScale_le (s / m) 0 h0 ?_ (by norm_num)
            calc s / m ≤ 1 := hy1
              _ < (2 : Rat) ^ ((0 : Int) + 1) := by norm_num
          calc |fl (s / m) - s / m|
              ≤ (2 : Rat) ^ (flScale (s / m) - 1) := herr
            _ ≤ (2 : Rat) ^ (-(53 : Int)) :=
                zpow_le_zpow_right₀ one_le_two (by omega)
      have hfy0 : (0 : Rat) ≤ fl (s / m) := fl_nonneg _ hy0
      have hfy1 : fl (s / m) ≤ 1 := by
        have := fl_le_of_le (s / m) 1 0 hy0 (by norm_num) (by norm_num)
          (by simpa using hy1)
        simpa using this
      have hx0 : (0 : Rat) ≤ fl (s / m) * 100 :=
        mul_nonneg hfy0 (by norm_num)
      have hx1 : fl (s / m) * 100 ≤ 100 := by linarith
      have hE2 : |fl (fl (s / m) * 100) - fl (s / m) * 100| ≤
          (2 : Rat) ^ (-(47 : Int)) := by
        rcases eq_or_lt_of_le hx0 with h0 | h0
        · rw [← h0]
          simp [fl]
          positivity
        · have herr := fl_error _ h0
          have hsc : flScale (fl (s / m) * 100) ≤ (6 : Int) - 52 := by
            refine flScale_le _ 6 h0 ?_ (by norm_num)
            calc fl (s / m) * 100 ≤ 100 := hx1
              _ < (2 : Rat) ^ ((6 : Int) + 1) := by norm_num
          calc |fl (fl (s / m) * 100) - fl (s / m) * 100|
              ≤ (2 : Rat) ^ (flScale (fl (s / m) * 100) - 1) := herr
            _ ≤ (2 : Rat) ^ (-(47 : Int)) :=
                zpow_le_zpow_right₀ one_le_two (by omega)
      have hsplit : fl (fl (s / m) * 100) - 100 * s / m =
          (fl (fl (s / m) * 100) - fl (s / m) * 100) +
          100 * (fl (s / m) - s / m) := by ring
      have hmul : |(100 : Rat) * (fl (s / m) - s / m)| ≤
          100 * (2 : Rat) ^ (-(53 : Int)) := by
        rw [abs_mul, abs_of_nonneg (by norm_num : (0 : Rat) ≤ 100)]
        exact mul_le_mul_of_nonneg_left hE1 (by norm_num)
      calc |fl (fl (s / m) * 100) - 100 * s / m|
          ≤ |fl (fl (s / m) * 100) - fl (s / m) * 100| +
            |(100 : Rat) * (fl (s / m) - s / m)| := by
            rw [hsplit]
            exact abs_add _ _
        _ ≤ (2 : Rat) ^ (-(47 : Int)) + 100 * (2 : Rat) ^ (-(53 : Int)) := by
            linarith
        _ ≤ 1 / 2 ^ 45 := by norm_num
  · simp [calculate_results]

/-- A hundred-copy single-question test with `passing_score = 29`. -/
def centuryTest : Test :=
  { name := "century", description := "",
    questions := List.replicate 100 sampleSingleQ,
    time_limit := none, passing_score := 29 }

/-- Answers for `centuryTest`: the first 29 positions are answered
correctly, the rest left unanswered. -/
def centuryAnswers : List (Nat × List Int) :=
  (List.range 29).map (fun i => (i, [1]))

/-- C3 counterexample: on a 100-question test with exactly 29 correct
answers the program returns the double nearest `(29/100) * 100` after two
roundings, namely `8162774324609023 / 2 ^ 48 = 28.999999999999996…`, not
the exact `100 * 29 / 100 = 29`; with `passing_score = 29` the test is
reported failed although the claimed exact percentage would pass it. -/
theorem percentage_not_exact :
    (calculate_results centuryTest centuryAnswers).score = 29 ∧
    (calculate_results centuryTest centuryAnswers).max_score = 100 ∧
    centuryTest.passing_score = 29 ∧
    (calculate_results centuryTest centuryAnswers).percentage ≠
      100 * ((calculate_results centuryTest centuryAnswers).score : Rat) /
        ((calculate_results centuryTest centuryAnswers).max_score : Rat) ∧
    (calculate_results centuryTest centuryAnswers).passed = false := by
  have hs : (calculate_results centuryTest centuryAnswers).score = 29 := by
    decide
  have hmax : (calculate_results centuryTest centuryAnswers).max_score = 100 := by
    decide
  have h1 : fl (29 / 100 : Rat) =
      ((5224175567749775 : Int) : Rat) * (2 : Rat) ^ (-(2 : Int) - 52) := by
    refine fl_eval (29 / 100 : Rat) (-2) 5224175567749775 (by norm_num)
      (by norm_num) (by norm_num) (by norm_num) ?_
    have hx : (29 / 100 : Rat) / (2 : Rat) ^ (-(2 : Int) - 52) =
        130604389193744384 / 25 := by norm_num
    rw [hx]
    have hfloor : ⌊(130604389193744384 / 25 : Rat)⌋ = 5224175567749775 := by
      rw [Int.floor_eq_iff]
      norm_num
    rw [rndNE_eq_floor _ (by rw [hfloor]; norm_num), hfloor]
  have h2 : fl (((5224175567749775 : Int) : Rat) *
      (2 : Rat) ^ (-(2 : Int) - 52) * 100) =
      ((8162774324609023 : Int) : Rat) * (2 : Rat) ^ ((4 : Int) - 52) := by
    refine fl_eval _ 4 8162774324609023 (by norm_num) (by norm_num)
      (by norm_num) (by norm_num) ?_
    have hx : ((5224175567749775 : Int) : Rat) *
        (2 : Rat) ^ (-(2 : Int) - 52) * 100 / (2 : Rat) ^ ((4 : Int) - 52) =
        130604389193744375 / 16 := by norm_num
    rw [hx]
    have hfloor : ⌊(130604389193744375 / 16 : Rat)⌋ = 8162774324609023 := by
      rw [Int.floor_eq_iff]
      norm_num
    rw [rndNE_eq_floor _ (by rw [hfloor]; norm_num), hfloor]
  have hP : (calculate_results centuryTest centuryAnswers).percentage =
      ((8162774324609023 : Int) : Rat) * (2 : Rat) ^ ((4 : Int) - 52) := by
    rw [percentage_eq _ _ (by decide), hs, hmax]
    rw [show ((29 : Nat) : Rat) / ((100 : Nat) : Rat) = (29 / 100 : Rat) from
      by norm_num]
    rw [h1, h2]
  refine ⟨hs, hmax, rfl, ?_, ?_⟩
  · rw [hP, hs, hmax]
    push_cast
    norm_num
  · have hpass : (calculate_results centuryTest centuryAnswers).passed =
        decide ((calculate_results centuryTest centuryAnswers).percentage ≥
          (centuryTest.passing_score : Rat)) := rfl
    rw [hpass, hP]
    rw [show (centuryTest.passing_score : Rat) = 29 from by norm_num [centuryTest]]
    rw [decide_eq_false_iff_not]
    push_cast
    norm_num

/-- A test whose name and whose only question's text are empty strings. -/
def emptyStringsTest : Test :=
  { name := "", description := "",
    questions := [{ text := "", type := QuestionType.single,
                    options := ["A", "B"], correct_answers := [0],
                    explanation := none }],
    time_limit := none, passing_score := 80 }

/-- C5 counterexample: parsing accepts a definition whose quiz name is the
empty string and whose only question has an empty text — schemas.py lines
12 and 39 declare plain `str` fields with no non-emptiness constraint, so
the claimed rejection does not happen. -/
theorem empty_name_and_text_accepted :
    emptyStringsTest.name = "" ∧
    emptyStringsTest.questions.map (fun q => q.text) = [""] ∧
    parse_test emptyStringsTest = some emptyStringsTest := by
  refine ⟨rfl, rfl, ?_⟩
  decide

/-- C5 (amended): validation places no constraint on the quiz name or on
a question's text: replacing either by an arbitrary string (in particular
the empty string) never changes whether the definition is accepted. -/
theorem name_and_text_unconstrained (t : Test) (s : String)
    (q : Question) (s2 : String) :
    validTest { t with name := s } = validTest t ∧
    validQuestion { q with text := s2 } = validQuestion q :=
  ⟨rfl, rfl⟩

/-- A test carrying `time_limit = 0`. -/
def zeroTimeLimitTest : Test :=
  { name := "timed", description := "",
    questions := [{ text := "q", type := QuestionType.single,
                    options := ["A", "B"], correct_answers := [0],
                    explanation := none }],
    time_limit := some 0, passing_score := 80 }

/-- C6 counterexample: a definition with `time_limit = 0` is accepted —
schemas.py line 42 declares `Optional[int]` with no positivity bound, so
the claimed rejection of zero/negative limits does not happen. -/
theorem zero_time_limit_accepted :
    zeroTimeLimitTest.time_limit = some 0 ∧
    parse_test zeroTimeLimitTest = some zeroTimeLimitTest := by
  refine ⟨rfl, ?_⟩
  decide

/-- C6 (amended): validation ignores `time_limit` entirely: any integer
(zero and negatives included) or `null` is accepted, with acceptance
unchanged. -/
theorem time_limit_unconstrained (t : Test) (v : Option Int) :
    validTest { t with time_limit := v } = validTest t :=
  rfl

/-- C8: re-parsing the record formed from a successfully parsed test's own
field values succeeds and returns an equal test. -/
theorem parse_round_trip (t u : Test) (h : parse_test t = some u) :
    u = t ∧ parse_test u = some u := by
  unfold parse_test at h
  split at h
  · next hv =>
      cases h
      exact ⟨rfl, by rw [parse_test, if_pos hv]⟩
  · cases h

/-- Witness for C8 at the sample test. -/
theorem parse_round_trip_witness :
    sampleTest = sampleTest ∧ parse_test sampleTest = some sampleTest :=
  parse_round_trip sampleTest sampleTest (by decide)

/-- C4: a `Question` definition whose `correct_answers` is empty, contains
an index outside `[0, len(options)-1]`, or, for type `single`, does not
have exactly one element, is rejected by validation; and every accepted
question satisfies all three invariants. -/
theorem question_validation (q : Question) :
    ((q.correct_answers = [] ∨
      (∃ idx ∈ q.correct_answers,
        idx < 0 ∨ (q.options.length : Int) - 1 < idx) ∨
      (q.type = QuestionType.single ∧ q.correct_answers.length ≠ 1)) →
      validQuestion q = false) ∧
    (validQuestion q = true →
      q.correct_answers ≠ [] ∧
      (∀ idx ∈ q.correct_answers,
        0 ≤ idx ∧ idx ≤ (q.options.length : Int) - 1) ∧
      (q.type = QuestionType.single → q.correct_answers.length = 1)) := by
  constructor
  · intro hviol
    cases hvq : validQuestion q with
    | false => rfl
    | true =>
      obtain ⟨-, h1, h2, h3⟩ := (validQuestion_spec q).mp hvq
      rcases hviol with h | ⟨idx, hmem, hout⟩ | ⟨hs, hlen⟩
      · exact absurd h h1
      · rcases hout with h | h
        · exact absurd (h2 idx hmem).1 (not_le.mpr h)
        · exact absurd (h2 idx hmem).2 (not_le.mpr h)
      · exact absurd (h3 hs) hlen
  · intro hv
    obtain ⟨-, h1, h2, h3⟩ := (validQuestion_spec q).mp hv
    exact ⟨h1, h2, h3⟩

/-- A question whose only correct-answer index is out of range. -/
def badIndexQ : Question :=
  { text := "bad", type := QuestionType.multiple,
    options := ["A", "B"], correct_answers := [2], explanation := none }

/-- Witness for C4: the out-of-range question is rejected, and the
accepted sample single question satisfies the invariants. -/
theorem question_validation_witness :
    validQuestion badIndexQ = false ∧
    (sampleSingleQ.correct_answers ≠ [] ∧
     (∀ idx ∈ sampleSingleQ.correct_answers,
       0 ≤ idx ∧ idx ≤ (sampleSingleQ.options.length : Int) - 1) ∧
     (sampleSingleQ.type = QuestionType.single →
       sampleSingleQ.correct_answers.length = 1)) :=
  ⟨(question_validation badIndexQ).1
      (Or.inr (Or.inl ⟨2, by decide, by decide⟩)),
   (question_validation sampleSingleQ).2 (by decide)⟩

/-- C7: in a validated test, a question position absent from the answer
map is scored with the empty selection: its result records an empty
`user_answer` and is marked incorrect (and `calculate_results` is a total
function, so no input can make it raise). -/
theorem unanswered_scored_wrong (t : Test) (ht : validTest t = true)
    (d : List (Nat × List Int)) (i : Nat) (hi : i < t.questions.length)
    (h2 : i < (calculate_results t d).answers.length)
    (habs : ∀ p ∈ d, p.1 ≠ i) :
    ((calculate_results t d).answers.get ⟨i, h2⟩).user_answer = [] ∧
    ((calculate_results t d).answers.get ⟨i, h2⟩).is_correct = false := by
  rw [answers_get t d i hi h2]
  have hd : dictGet d i = [] := dictGet_eq_nil d i habs
  have hvq := validTest_question t ht i hi
  obtain ⟨-, hne, -, -⟩ := (validQuestion_spec _).mp hvq
  refine ⟨by simp [question_result, hd], ?_⟩
  simp only [question_result, score_question, hd]
  cases hq : (t.questions.get ⟨i, hi⟩).type with
  | single => simp
  | multiple =>
    have hfin : (t.questions.get ⟨i, hi⟩).correct_answers.toFinset ≠ ∅ := by
      simpa [List.toFinset_eq_empty_iff] using hne
    simp only [List.toFinset_nil, decide_eq_false_iff_not]
    exact fun h => hfin h.symm

/-- Witness for C7: position `1` of the sample test is absent from
`partialAnswers` and is scored unanswered and wrong. -/
theorem unanswered_scored_wrong_witness :
    ((calculate_results sampleTest partialAnswers).answers.get
        ⟨1, by decide⟩).user_answer = [] ∧
    ((calculate_results sampleTest partialAnswers).answers.get
        ⟨1, by decide⟩).is_correct = false :=
  unanswered_scored_wrong sampleTest (by decide) partialAnswers 1
    (by decide) (by decide) (by decide)

/-- C9: structural invariants of every scoring result: `max_score` is the
question count, `answers` has one entry per question in the order of the
test's questions, the score is between `0` and `max_score`, and the
percentage lies in `[0, 100]`. -/
theorem result_invariants (t : Test) (d : List (Nat × List Int)) :
    (calculate_results t d).max_score = t.questions.length ∧
    (calculate_results t d).answers.length = t.questions.length ∧
    (calculate_results t d).answers.map (fun a => a.question_text) =
      t.questions.map (fun q => q.text) ∧
    (calculate_results t d).score ≤ (calculate_results t d).max_score ∧
    0 ≤ (calculate_results t d).percentage ∧
    (calculate_results t d).percentage ≤ 100 := by
  refine ⟨rfl, answers_length t d, ?_, score_le_max t d, ?_⟩
  · rw [answers_eq, List.map_map]
    rw [show ((fun a => a.question_text) ∘ question_result d) =
        ((fun q : Question => q.text) ∘ Prod.snd) from rfl]
    rw [← List.map_map, List.enum_map_snd]
  · by_cases h : 0 < t.questions.length
    · have hmx : ((calculate_results t d).max_score : Rat) =
          (t.questions.length : Rat) := rfl
      rw [percentage_eq t d h]
      have hposm : (0 : Rat) < ((calculate_results t d).max_score : Rat) := by
        rw [hmx]
        exact_mod_cast h
      have hy0 : (0 : Rat) ≤ ((calculate_results t d).score : Rat) /
          ((calculate_results t d).max_score : Rat) :=
        div_nonneg (by positivity) (le_of_lt hposm)
      have hy1 : ((calculate_results t d).score : Rat) /
          ((calculate_results t d).max_score : Rat) ≤ 1 := by
        rw [div_le_one hposm, hmx]
        exact_mod_cast score_le_max t d
      have hfy0 := fl_nonneg _ hy0
      have hfy1 : fl (((calculate_results t d).score : Rat) /
          ((calculate_results t d).max_score : Rat)) ≤ 1 := by
        have := fl_le_of_le _ 1 0 hy0 (by norm_num) (by norm_num)
          (by simpa using hy1)
        simpa using this
      have hx0 : (0 : Rat) ≤ fl (((calculate_results t d).score : Rat) /
          ((calculate_results t d).max_score : Rat)) * 100 :=
        mul_nonneg hfy0 (by norm_num)
      have hx1 : fl (((calculate_results t d).score : Rat) /
          ((calculate_results t d).max_score : Rat)) * 100 ≤ 100 := by
        linarith
      refine ⟨fl_nonneg _ hx0, ?_⟩
      have := fl_le_of_le _ 100 0 hx0 (by norm_num) (by norm_num)
        (by simpa using hx1)
      simpa using this
    · rw [percentage_zero t d (by omega)]
      norm_num

/-- C10: for a multiple-type question, validation accepts a
`correct_answers` list holding duplicate in-range indices, and set-based
scoring makes the duplicates irrelevant: appending a duplicate copy of
`correct_answers` changes neither acceptance nor the score of any
submitted answer. -/
theorem duplicate_correct_answers_harmless (q : Question)
    (hm : q.type = QuestionType.multiple) (hv : validQuestion q = true)
    (ua : List Int) :
    validQuestion
      { q with correct_answers :=
          q.correct_answers ++ q.correct_answers } = true ∧
    score_question
      { q with correct_answers :=
          q.correct_answers ++ q.correct_answers } ua =
      score_question q ua := by
  obtain ⟨hopt, hne, hrange, -⟩ := (validQuestion_spec q).mp hv
  constructor
  · refine (validQuestion_spec _).mpr ⟨hopt, ?_, ?_, ?_⟩
    · simp [hne]
    · intro idx hidx
      rcases List.mem_append.mp hidx with h | h
      · exact hrange idx h
      · exact hrange idx h
    · intro hs
      have hs2 : q.type = QuestionType.single := hs
      rw [hm] at hs2
      cases hs2
  · have ht2 : ({ q with correct_answers :=
        q.correct_answers ++ q.correct_answers } : Question).type =
          QuestionType.multiple := hm
    simp [score_question, ht2, hm, List.toFinset_append]

/-- Witness for C10: duplicating `[0, 2]` in the sample multiple question
keeps it accepted and keeps the answer `[0, 2]` scored correct. -/
theorem duplicate_correct_answers_harmless_witness :
    validQuestion
      { sampleMultiQ with correct_answers :=
          sampleMultiQ.correct_answers ++ sampleMultiQ.correct_answers } = true ∧
    score_question
      { sampleMultiQ with correct_answers :=
          sampleMultiQ.correct_answers ++ sampleMultiQ.correct_answers }
      [0, 2] = score_question sampleMultiQ [0, 2] :=
  duplicate_correct_answers_harmless sampleMultiQ rfl (by decide) [0, 2]

